import Mathlib

/-!
Shallow embedding of the floodsub router (floodsub.go) and proofs about it.

The router's single-threaded event loop is modelled as a pure step function
on an explicit state; every channel send performed while handling one event
is recorded as a `Send` action tagged with whether the source performs it
inline (a plain Go channel send, which suspends the sender when the buffer
is full) or in a detached goroutine.
-/

namespace Floodsub

/-- Peer identifiers are byte strings (Go peer.ID is a string type). -/
abbrev PeerID := String

abbrev Topic := String

/-- A pubsub message (pb.Message): originator, sequence number, payload, target topics. -/
structure Message where
  fromP : String
  seqno : String
  data : String
  topicIDs : List Topic
deriving DecidableEq, Repr

/-- A subscription option (pb.RPC_SubOpts): topic id and subscribe flag. -/
structure SubOpts where
  topicid : Topic
  subscribe : Bool
deriving DecidableEq, Repr

/-- Wire content of an RPC frame (pb.RPC): subscription options and published messages. -/
structure RPCMsg where
  subscriptions : List SubOpts
  publish : List Message
deriving DecidableEq, Repr

/-- An incoming RPC: wire content plus the peer it arrived from (the RPC.from field). -/
structure RPC where
  subscriptions : List SubOpts
  publish : List Message
  fromPeer : PeerID
deriving DecidableEq, Repr

/-- A subscription handle: an allocation id standing for the Go pointer identity,
plus the topic it subscribes to (fields sub.ch and sub.topic of the Go struct). -/
structure Subscription where
  id : Nat
  topic : Topic
deriving DecidableEq, Repr

/-- Modelled from the spec: rpcWithSubs (referenced by floodsub.go but defined in a
file of this repository that is not available) builds an RPC frame carrying exactly
the given subscription options and no messages. -/
def rpcWithSubs (opts : List SubOpts) : RPCMsg :=
  { subscriptions := opts, publish := [] }

/-- Modelled from the spec: rpcWithMessages (referenced by floodsub.go but defined in
a file of this repository that is not available) builds an RPC frame carrying just the
given messages and no subscription options. -/
def rpcWithMessages (msgs : List Message) : RPCMsg :=
  { subscriptions := [], publish := msgs }

/-- The destination of one channel send performed by the router loop: either a
peer's outbound queue or a local subscription inbox. -/
inductive Target where
  | peerQ (pid : PeerID)
  | inbox (subId : Nat)
deriving DecidableEq, Repr

/-- What is sent: an RPC frame (to a peer queue) or a message (to an inbox). -/
inductive Payload where
  | rpc (r : RPCMsg)
  | msg (m : Message)
deriving DecidableEq, Repr

/-- One enqueue performed while handling an event. `detached = true` when the Go
code performs the send in a spawned goroutine (go func() { ch <- out }()), so the
loop cannot suspend on it; `detached = false` for a plain inline channel send,
which suspends the loop whenever the buffered channel is full. -/
structure Send where
  target : Target
  payload : Payload
  detached : Bool
deriving DecidableEq, Repr

section MapHelpers

variable {κ : Type} {β : Type} [DecidableEq κ]

/-- Association-list lookup, modelling Go map indexing with an ok flag. -/
def mget : List (κ × β) → κ → Option β
  | [], _ => none
  | (a, b) :: rest, k => if a = k then some b else mget rest k

/-- Lookup with a default, modelling Go map indexing returning the zero value. -/
def mgetD (m : List (κ × β)) (k : κ) (d : β) : β :=
  (mget m k).getD d

/-- Association-list update/insert, modelling Go map assignment. -/
def mset : List (κ × β) → κ → β → List (κ × β)
  | [], k, v => [(k, v)]
  | (a, b) :: rest, k, v => if a = k then (k, v) :: rest else (a, b) :: mset rest k v

/-- The key list of an association list. -/
def keys (m : List (κ × β)) : List κ :=
  m.map Prod.fst

end MapHelpers

section SetHelpers

variable {α : Type} [DecidableEq α]

/-- Insertion into a list used as a set, modelling Go map-as-set insertion. -/
def sInsert (x : α) (l : List α) : List α :=
  if x ∈ l then l else x :: l

/-- Removal from a list used as a set, modelling Go delete on a map-as-set. -/
def sRemove (x : α) : List α → List α
  | [] => []
  | a :: l => if a = x then sRemove x l else a :: sRemove x l

end SetHelpers

/-- The router state owned by the process loop (the mutable fields of the Go
PubSub struct). Peer outbound queues are identified by their peer id, so `peers`
is the key set of the Go peers map; `closed` records the subscription handles
whose inbox channel has been closed, and `closeFault` becomes true when the code
closes an already-closed channel (a Go runtime panic). -/
structure PState where
  hostID : PeerID
  myTopics : List (Topic × List Nat)
  topics : List (Topic × List PeerID)
  peers : List PeerID
  seen : List String
  nextSub : Nat
  closed : List Nat
  closeFault : Bool
deriving DecidableEq, Repr

/-- The initial router state built by NewFloodSub: all maps empty. -/
def initState (h : PeerID) : PState :=
  { hostID := h, myTopics := [], topics := [], peers := [], seen := [],
    nextSub := 0, closed := [], closeFault := false }

/-- msgID: the deduplication identity of a message, the concatenation from ‖ seqno. -/
def msgID (m : Message) : String :=
  m.fromP ++ m.seqno

/-- seenMessage: whether the identity is in the seen-set (timecache.Has; the
time-window cache is external to the repository, modelled by its contract). -/
def seenMessage (st : PState) (id : String) : Bool :=
  decide (id ∈ st.seen)

/-- markSeen: record an identity in the seen-set (timecache.Add). -/
def markSeen (st : PState) (id : String) : PState :=
  { st with seen := id :: st.seen }

/-- notifySubs: for each topic of the message, deliver it to every local
subscription of that topic by a plain inline channel send (f.ch <- msg). -/
def notifySubs (st : PState) (m : Message) : List Send :=
  m.topicIDs.foldr
    (fun t acc =>
      (mgetD st.myTopics t []).map
        (fun sid => { target := Target.inbox sid, payload := Payload.msg m,
                      detached := false }) ++ acc)
    []

/-- subscribedToMsg: true when some topic of the message is a key of myTopics. -/
def subscribedToMsg (st : PState) (m : Message) : Bool :=
  m.topicIDs.any (fun t => (mget st.myTopics t).isSome)

/-- announce: broadcast a single subscription option to every current peer by a
plain inline channel send (peer <- out). -/
def announce (st : PState) (topic : Topic) (sub : Bool) : List Send :=
  st.peers.map
    (fun pid => { target := Target.peerQ pid,
                  payload := Payload.rpc (rpcWithSubs [{ topicid := topic, subscribe := sub }]),
                  detached := false })

/-- The accumulation of the tosend set: insert every remote subscriber of every
topic of the list (publishMessage's first loop, a map used as a set). -/
def toSend (st : PState) : List Topic → List PeerID → List PeerID
  | [], acc => acc
  | t :: ts, acc => toSend st ts ((mgetD st.topics t []).foldl (fun a p => sInsert p a) acc)

/-- publishMessage: forward the message to every peer of the tosend set other
than the immediate sender and the recorded originator, skipping peers without a
registered queue; each enqueue runs in a detached goroutine. -/
def publishMessage (st : PState) (frm : PeerID) (m : Message) : List Send :=
  ((toSend st m.topicIDs []).filter
      (fun pid => decide (pid ≠ frm) && decide (pid ≠ m.fromP) && decide (pid ∈ st.peers))).map
    (fun pid => { target := Target.peerQ pid,
                  payload := Payload.rpc (rpcWithMessages [m]),
                  detached := true })

/-- maybePublishMessage: dedup on msgID, then mark seen, deliver locally and
forward; a seen identity returns immediately with no effect. -/
def maybePublishMessage (st : PState) (frm : PeerID) (m : Message) : PState × List Send :=
  let id := msgID m
  if seenMessage st id then (st, [])
  else
    let st1 := markSeen st id
    (st1, notifySubs st1 m ++ publishMessage st1 frm m)

/-- handleAddSubscription: announce subscribe=true to all peers when there is no
live subscriber yet, create the topic entry if absent, insert a fresh handle. -/
def handleAddSubscription (st : PState) (topic : Topic) : PState × List Send × Subscription :=
  let subs := mget st.myTopics topic
  let ann := if (subs.getD []).length = 0 then announce st topic true else []
  let st1 :=
    match subs with
    | none => { st with myTopics := mset st.myTopics topic [] }
    | some _ => st
  let sub : Subscription := { id := st.nextSub, topic := topic }
  let st2 := { st1 with
                 myTopics := mset st1.myTopics topic (sInsert sub.id (mgetD st1.myTopics topic [])),
                 nextSub := st.nextSub + 1 }
  (st2, ann, sub)

/-- handleRemoveSubscription: ignore when the topic has no entry; otherwise close
the handle's inbox (closing twice is a runtime fault), delete the handle, and
announce subscribe=false when the subscriber set becomes empty. -/
def handleRemoveSubscription (st : PState) (sub : Subscription) : PState × List Send :=
  match mget st.myTopics sub.topic with
  | none => (st, [])
  | some subs =>
    let remaining := sRemove sub.id subs
    let st1 := { st with
                   closed := sInsert sub.id st.closed,
                   closeFault := st.closeFault || decide (sub.id ∈ st.closed),
                   myTopics := mset st.myTopics sub.topic remaining }
    if remaining.length = 0 then (st1, announce st1 sub.topic false) else (st1, [])

/-- Modelled from the spec: getHelloPacket (referenced by floodsub.go but defined
in a file of this repository that is not available) builds an RPC carrying a
subscribe=true option for every topic currently in myTopics. -/
def getHelloPacket (st : PState) : RPCMsg :=
  rpcWithSubs ((keys st.myTopics).map (fun t => { topicid := t, subscribe := true }))

/-- Peer-up: register the peer's fresh outbound queue and enqueue the hello
packet on it (an inline send on a fresh empty queue). -/
def handlePeerUp (st : PState) (pid : PeerID) : PState × List Send :=
  ({ st with peers := sInsert pid st.peers },
   [{ target := Target.peerQ pid, payload := Payload.rpc (getHelloPacket st), detached := false }])

/-- Peer-down: drop the peer from the peers map and from every remote topic set. -/
def handlePeerDown (st : PState) (pid : PeerID) : PState :=
  { st with peers := sRemove pid st.peers,
            topics := st.topics.map (fun tp => (tp.1, sRemove pid tp.2)) }

/-- Phase one of handleIncomingRPC for one subscription option: insert the
sending peer into (or remove it from) the topic's remote set. -/
def handleSubOpt (st : PState) (frm : PeerID) (s : SubOpts) : PState :=
  if s.subscribe then
    { st with topics := mset st.topics s.topicid (sInsert frm (mgetD st.topics s.topicid [])) }
  else
    match mget st.topics s.topicid with
    | none => st
    | some tmap => { st with topics := mset st.topics s.topicid (sRemove frm tmap) }

/-- The first loop of handleIncomingRPC: process each subscription option in order. -/
def handleSubOpts (frm : PeerID) : PState → List SubOpts → PState
  | st, [] => st
  | st, o :: os => handleSubOpts frm (handleSubOpt st frm o) os

/-- The second loop of handleIncomingRPC: publish-maybe each contained message in
order, dropping a message when no topic of it is a key of myTopics. -/
def handleMsgs (frm : PeerID) : PState × List Send → List Message → PState × List Send
  | acc, [] => acc
  | acc, m :: ms =>
    handleMsgs frm
      (if subscribedToMsg acc.1 m then
        ((maybePublishMessage acc.1 frm m).1, acc.2 ++ (maybePublishMessage acc.1 frm m).2)
      else acc)
      ms

/-- handleIncomingRPC: process all subscription options, then publish-maybe each
contained message unless no topic of it is a key of myTopics (then drop it). -/
def handleIncomingRPC (st : PState) (r : RPC) : PState × List Send :=
  handleMsgs r.fromPeer (handleSubOpts r.fromPeer st r.subscriptions, []) r.publish

/-- ListPeers handling in the process loop: empty topic lists every connected
peer; a topic with no remote entry yields nil; otherwise the connected peers
that are in the topic's remote set. -/
def listPeers (st : PState) (topic : Topic) : List PeerID :=
  match mget st.topics topic with
  | none => if topic = "" then st.peers else []
  | some tmap => if topic = "" then st.peers else st.peers.filter (fun p => decide (p ∈ tmap))

/-- The state-mutating router events of the process loop. -/
inductive Event where
  | peerUp (pid : PeerID)
  | peerDown (pid : PeerID)
  | incoming (r : RPC)
  | addSub (topic : Topic)
  | cancel (sub : Subscription)
  | publish (m : Message)
deriving DecidableEq, Repr

/-- One iteration of the process loop on one event, returning the new state and
the sends performed while handling it. -/
def step (st : PState) (e : Event) : PState × List Send :=
  match e with
  | Event.peerUp pid => handlePeerUp st pid
  | Event.peerDown pid => (handlePeerDown st pid, [])
  | Event.incoming r => handleIncomingRPC st r
  | Event.addSub t =>
    let r := handleAddSubscription st t
    (r.1, r.2.1)
  | Event.cancel sub => handleRemoveSubscription st sub
  | Event.publish m => maybePublishMessage st st.hostID m

/-- Run a sequence of events from a state, keeping only the final state. -/
def runEvents (st : PState) : List Event → PState
  | [] => st
  | e :: es => runEvents (step st e).1 es

/-- Authentication modes of a topic descriptor. Modelled from the spec: the
pb.TopicDescriptor type lives in a package of this repository that is not
available; the spec requires the mode NONE and refuses every other one. -/
inductive AuthMode where
  | NONE
  | KEY
  | WOT
deriving DecidableEq, Repr

/-- Encryption modes of a topic descriptor. Modelled from the spec, like AuthMode. -/
inductive EncMode where
  | NONE
  | SHAREDKEY
  | WOT
deriving DecidableEq, Repr

/-- A topic descriptor as consulted by Subscribe: name, auth mode, enc mode. -/
structure TopicDescriptor where
  name : Topic
  auth : AuthMode
  enc : EncMode
deriving DecidableEq, Repr

/-- Subscribe's own descriptor for a topic: only the name is set, so both modes
are the zero value NONE. -/
def mkDescriptor (topic : Topic) : TopicDescriptor :=
  { name := topic, auth := AuthMode.NONE, enc := EncMode.NONE }

/-- Subscribe, factored over the topic descriptor it checks: refuse a non-NONE
auth or enc mode synchronously with no state change; otherwise run the
add-subscription command and hand back the fresh handle. -/
def subscribeTD (st : PState) (td : TopicDescriptor) :
    Except String Subscription × PState × List Send :=
  if td.auth ≠ AuthMode.NONE then (Except.error "Auth method not yet supported", st, [])
  else if td.enc ≠ EncMode.NONE then (Except.error "Encryption method not yet supported", st, [])
  else
    let r := handleAddSubscription st td.name
    (Except.ok r.2.2, r.1, r.2.1)

/-- Subscribe(topic): build the descriptor from the topic name and check it. -/
def subscribeTopic (st : PState) (topic : Topic) :
    Except String Subscription × PState × List Send :=
  subscribeTD st (mkDescriptor topic)

section HelperLemmas

variable {α : Type} [DecidableEq α] {κ : Type} {β : Type} [DecidableEq κ]

theorem mem_sInsert (x y : α) (l : List α) : y ∈ sInsert x l ↔ y = x ∨ y ∈ l := by
  unfold sInsert
  split
  case isTrue h =>
    constructor
    · exact fun hy => Or.inr hy
    · rintro (rfl | hy)
      · exact h
      · exact hy
  case isFalse h =>
    simp [List.mem_cons]

theorem nodup_sInsert (x : α) (l : List α) (h : l.Nodup) : (sInsert x l).Nodup := by
  unfold sInsert
  split
  · exact h
  case isFalse hx => exact List.nodup_cons.mpr ⟨hx, h⟩

theorem mem_sRemove (x y : α) (l : List α) : y ∈ sRemove x l ↔ y ∈ l ∧ y ≠ x := by
  induction l with
  | nil => simp [sRemove]
  | cons a l ih =>
    unfold sRemove
    split
    case isTrue h =>
      subst h
      rw [ih]
      constructor
      · rintro ⟨hy, hne⟩
        exact ⟨List.mem_cons_of_mem _ hy, hne⟩
      · rintro ⟨hy, hne⟩
        rcases List.mem_cons.mp hy with rfl | hy
        · exact absurd rfl hne
        · exact ⟨hy, hne⟩
    case isFalse h =>
      rw [List.mem_cons, List.mem_cons, ih]
      constructor
      · rintro (rfl | ⟨hy, hne⟩)
        · exact ⟨Or.inl rfl, fun hc => h hc⟩
        · exact ⟨Or.inr hy, hne⟩
      · rintro ⟨rfl | hy, hne⟩
        · exact Or.inl rfl
        · exact Or.inr ⟨hy, hne⟩

theorem mget_mset_self (l : List (κ × β)) (k : κ) (v : β) : mget (mset l k v) k = some v := by
  induction l with
  | nil => simp [mset, mget]
  | cons a l ih =>
    unfold mset
    split
    case isTrue h => simp [mget]
    case isFalse h => simpa [mget, h] using ih

theorem mget_mset_ne (l : List (κ × β)) (k k' : κ) (v : β) (h : k' ≠ k) :
    mget (mset l k v) k' = mget l k' := by
  induction l with
  | nil =>
    simp only [mset, mget]
    rw [if_neg (fun hc => h hc.symm)]
  | cons a l ih =>
    unfold mset
    split
    case isTrue ha =>
      subst ha
      simp only [mget]
      rw [if_neg (fun hc => h hc.symm), if_neg (fun hc => h hc.symm)]
    case isFalse ha =>
      by_cases hk : a.1 = k'
      · simp [mget, hk]
      · simpa [mget, hk] using ih

theorem keys_mset_of_mem (l : List (κ × β)) (k : κ) (v w : β) (h : mget l k = some w) :
    keys (mset l k v) = keys l := by
  induction l with
  | nil => simp [mget] at h
  | cons a l ih =>
    unfold mset
    split
    case isTrue ha => simp [keys, ha]
    case isFalse ha =>
      unfold mget at h
      rw [if_neg ha] at h
      simpa [keys] using ih h

theorem mget_map_fun (l : List (κ × β)) (k : κ) (f : β → β) :
    mget (l.map (fun tp => (tp.1, f tp.2))) k = (mget l k).map f := by
  induction l with
  | nil => simp [mget]
  | cons a l ih =>
    by_cases h : a.1 = k
    · simp [mget, h]
    · simpa [mget, h] using ih

end HelperLemmas

/-- The sends among a send list that target one peer's outbound queue. -/
def sendsToPeer (sends : List Send) (q : PeerID) : List Send :=
  sends.filter (fun s => decide (s.target = Target.peerQ q))

theorem filter_nil_of_not_mem {α : Type} [DecidableEq α] (l : List α) (q : α) (p : α → Bool)
    (h : q ∉ l) : l.filter (fun x => decide (x = q) && p x) = [] := by
  induction l with
  | nil => rfl
  | cons a l ih =>
    have ha : ¬(a = q) := fun hc => h (hc ▸ List.mem_cons_self a l)
    have hl : q ∉ l := fun hc => h (List.mem_cons_of_mem a hc)
    simp [List.filter_cons, ha, ih hl]

theorem filter_eq_single {α : Type} [DecidableEq α] (l : List α) (q : α) (p : α → Bool)
    (hnd : l.Nodup) :
    l.filter (fun x => decide (x = q) && p x) =
      if q ∈ l ∧ p q = true then [q] else [] := by
  induction l with
  | nil => simp
  | cons a l ih =>
    rcases List.nodup_cons.mp hnd with ⟨ha, hl⟩
    by_cases hq : a = q
    · subst hq
      by_cases hp : p a = true
      · simp [List.filter_cons, hp, filter_nil_of_not_mem l a p ha]
      · simp [List.filter_cons, hp, filter_nil_of_not_mem l a p ha, ih hl]
    · have hqa : ¬(q = a) := fun hc => hq hc.symm
      have hcond : (decide (a = q) && p a) = false := by
        simp [hq]
      rw [List.filter_cons, hcond]
      simp only [Bool.false_eq_true, if_false]
      rw [ih hl]
      have hmem : (q ∈ a :: l ∧ p q = true) ↔ (q ∈ l ∧ p q = true) := by
        simp [List.mem_cons, hqa]
      rw [if_congr hmem rfl rfl]

theorem sendsToPeer_map (l : List PeerID) (q : PeerID) (f : PeerID → Send)
    (hf : ∀ pid, (f pid).target = Target.peerQ pid) :
    sendsToPeer (l.map f) q = (l.filter (fun x => decide (x = q))).map f := by
  induction l with
  | nil => rfl
  | cons a l ih =>
    by_cases hq : a = q
    · subst hq
      simp only [List.map_cons, sendsToPeer, List.filter_cons, hf a]
      simp only [sendsToPeer] at ih
      simp [ih]
    · simp only [List.map_cons, sendsToPeer, List.filter_cons, hf a]
      simp only [sendsToPeer] at ih
      simp [ih, hq]

theorem mem_foldl_sInsert {α : Type} [DecidableEq α] (l acc : List α) (y : α) :
    y ∈ l.foldl (fun a p => sInsert p a) acc ↔ y ∈ acc ∨ y ∈ l := by
  induction l generalizing acc with
  | nil => simp
  | cons a l ih =>
    rw [List.foldl_cons, ih, mem_sInsert]
    constructor
    · rintro ((rfl | hy) | hy)
      · exact Or.inr (List.mem_cons_self _ _)
      · exact Or.inl hy
      · exact Or.inr (List.mem_cons_of_mem _ hy)
    · rintro (hy | hy)
      · exact Or.inl (Or.inr hy)
      · rcases List.mem_cons.mp hy with rfl | hy
        · exact Or.inl (Or.inl rfl)
        · exact Or.inr hy

theorem nodup_foldl_sInsert {α : Type} [DecidableEq α] (l : List α) :
    ∀ acc : List α, acc.Nodup → (l.foldl (fun a p => sInsert p a) acc).Nodup := by
  induction l with
  | nil => exact fun acc h => h
  | cons a l ih => exact fun acc h => ih _ (nodup_sInsert a acc h)

theorem mem_toSend (st : PState) (ts : List Topic) (acc : List PeerID) (y : PeerID) :
    y ∈ toSend st ts acc ↔ y ∈ acc ∨ ∃ t ∈ ts, y ∈ mgetD st.topics t [] := by
  induction ts generalizing acc with
  | nil => simp [toSend]
  | cons t ts ih =>
    rw [toSend, ih, mem_foldl_sInsert]
    constructor
    · rintro ((hy | hy) | ⟨u, hu, hy⟩)
      · exact Or.inl hy
      · exact Or.inr ⟨t, List.mem_cons_self _ _, hy⟩
      · exact Or.inr ⟨u, List.mem_cons_of_mem _ hu, hy⟩
    · rintro (hy | ⟨u, hu, hy⟩)
      · exact Or.inl (Or.inl hy)
      · rcases List.mem_cons.mp hu with rfl | hu
        · exact Or.inl (Or.inr hy)
        · exact Or.inr ⟨u, hu, hy⟩

theorem nodup_toSend (st : PState) (ts : List Topic) :
    ∀ acc : List PeerID, acc.Nodup → (toSend st ts acc).Nodup := by
  induction ts with
  | nil => exact fun acc h => h
  | cons t ts ih => exact fun acc h => ih _ (nodup_foldl_sInsert _ acc h)

theorem sendsToPeer_publishMessage (st : PState) (frm : PeerID) (m : Message) (q : PeerID) :
    sendsToPeer (publishMessage st frm m) q =
      (if q ≠ frm ∧ q ≠ m.fromP ∧ q ∈ st.peers ∧ ∃ t ∈ m.topicIDs, q ∈ mgetD st.topics t []
       then [{ target := Target.peerQ q,
               payload := Payload.rpc (rpcWithMessages [m]), detached := true }]
       else []) := by
  rw [publishMessage,
      sendsToPeer_map _ _ _ (fun pid => rfl),
      List.filter_filter,
      filter_eq_single _ _ _ (nodup_toSend st m.topicIDs [] List.nodup_nil)]
  have hiff :
      (q ∈ toSend st m.topicIDs [] ∧
        (decide (q ≠ frm) && decide (q ≠ m.fromP) && decide (q ∈ st.peers)) = true) ↔
      (q ≠ frm ∧ q ≠ m.fromP ∧ q ∈ st.peers ∧ ∃ t ∈ m.topicIDs, q ∈ mgetD st.topics t []) := by
    rw [mem_toSend]
    simp only [List.not_mem_nil, false_or, Bool.and_eq_true, decide_eq_true_eq]
    constructor
    · rintro ⟨hmem, ⟨h1, h2⟩, h3⟩
      exact ⟨h1, h2, h3, hmem⟩
    · rintro ⟨h1, h2, h3, hmem⟩
      exact ⟨hmem, ⟨h1, h2⟩, h3⟩
  rw [if_congr hiff rfl rfl]
  split
  · rfl
  · rfl

/-- C2: publishMessage never enqueues anything to the immediate sender nor to
the originator recorded in the message; every other peer that is both connected
and a remote subscriber of at least one of the message's topics gets exactly one
enqueue of the RPC carrying just this message (the tosend set deduplicates
peers subscribed to several of the topics), and every other peer gets none. -/
theorem claim_C2 (st : PState) (frm : PeerID) (m : Message) (q : PeerID) :
    sendsToPeer (publishMessage st frm m) frm = [] ∧
    sendsToPeer (publishMessage st frm m) m.fromP = [] ∧
    sendsToPeer (publishMessage st frm m) q =
      (if q ≠ frm ∧ q ≠ m.fromP ∧ q ∈ st.peers ∧ ∃ t ∈ m.topicIDs, q ∈ mgetD st.topics t []
       then [{ target := Target.peerQ q,
               payload := Payload.rpc (rpcWithMessages [m]), detached := true }]
       else []) := by
  refine ⟨?_, ?_, sendsToPeer_publishMessage st frm m q⟩
  · rw [sendsToPeer_publishMessage st frm m frm]
    simp
  · rw [sendsToPeer_publishMessage st frm m m.fromP]
    simp

/-- Concrete router state for the msgID collision scenario: one remote peer Q
subscribed to topic t and one live local subscription to t. -/
def c10State : PState :=
  runEvents (initState "H")
    [Event.peerUp "Q",
     Event.incoming { subscriptions := [{ topicid := "t", subscribe := true }],
                      publish := [], fromPeer := "Q" },
     Event.addSub "t"]

def c10M1 : Message :=
  { fromP := "ab", seqno := "c", data := "", topicIDs := ["t"] }

def c10M2 : Message :=
  { fromP := "a", seqno := "bc", data := "", topicIDs := ["t"] }

/-- C10: msgID is not injective on (from, seqno) pairs of varying lengths: the
messages from="ab",seqno="c" and from="a",seqno="bc" are distinct in both fields
yet share the identity "abc", so after the first is processed the second is
treated as already seen by maybePublishMessage and is neither delivered nor
forwarded, although the first one did produce deliveries and forwards. -/
theorem claim_C10 :
    c10M1.fromP ≠ c10M2.fromP ∧ c10M1.seqno ≠ c10M2.seqno ∧ c10M1 ≠ c10M2 ∧
    msgID c10M1 = msgID c10M2 ∧
    (maybePublishMessage c10State "P" c10M1).2 ≠ [] ∧
    maybePublishMessage (maybePublishMessage c10State "P" c10M1).1 "P" c10M2 =
      ((maybePublishMessage c10State "P" c10M1).1, []) := by
  decide

/-- C1: a message whose identity is already in the seen-set is returned before
any delivery or forwarding (state unchanged, no sends); an unseen identity is
recorded exactly once, the sends of the observation are exactly one round of
local deliveries followed by one round of forwards, and processing the same
message again (from any peer) drops it with no state change and no sends. -/
theorem claim_C1 (st : PState) (frm frm2 : PeerID) (m : Message) :
    (msgID m ∈ st.seen → maybePublishMessage st frm m = (st, [])) ∧
    (msgID m ∉ st.seen →
      ((maybePublishMessage st frm m).1.seen.count (msgID m) = 1 ∧
       (maybePublishMessage st frm m).2 =
         notifySubs (markSeen st (msgID m)) m ++ publishMessage (markSeen st (msgID m)) frm m ∧
       maybePublishMessage (maybePublishMessage st frm m).1 frm2 m =
         ((maybePublishMessage st frm m).1, []))) := by
  constructor
  · intro h
    simp [maybePublishMessage, seenMessage, h]
  · intro h
    have hs : seenMessage st (msgID m) = false := by
      simp [seenMessage, h]
    have h2 : seenMessage (markSeen st (msgID m)) (msgID m) = true := by
      simp [seenMessage, markSeen]
    refine ⟨?_, ?_, ?_⟩
    · simp [maybePublishMessage, hs, markSeen, List.count_cons_self, List.count_eq_zero.mpr h]
    · simp [maybePublishMessage, hs]
    · simp [maybePublishMessage, hs, h2]

theorem sendsToPeer_announce (st : PState) (t : Topic) (b : Bool) (q : PeerID)
    (hnd : st.peers.Nodup) :
    sendsToPeer (announce st t b) q =
      (if q ∈ st.peers then
        [{ target := Target.peerQ q,
           payload := Payload.rpc (rpcWithSubs [{ topicid := t, subscribe := b }]),
           detached := false }]
       else []) := by
  rw [announce, sendsToPeer_map _ _ _ (fun pid => rfl)]
  have hgen : st.peers.filter (fun x => decide (x = q)) =
      st.peers.filter (fun x => decide (x = q) && (fun _ : PeerID => true) x) := by
    simp
  rw [hgen, filter_eq_single _ _ _ hnd]
  have hmem : (q ∈ st.peers ∧ (fun _ : PeerID => true) q = true) ↔ q ∈ st.peers := by
    simp
  rw [if_congr hmem rfl rfl]
  split
  · rfl
  · rfl

/-- C5: processing add-subscription for topic t while myTopics[t] is empty or
absent enqueues exactly one subscribe=true option for t to every current peer
and nothing to anyone else; when a live subscriber already exists nothing is
announced; a cancel that leaves the topic's subscriber set empty enqueues
exactly one subscribe=false option for t to every current peer, and a cancel
that leaves subscribers behind announces nothing. -/
theorem claim_C5 (st : PState) (t : Topic) (sub : Subscription) (q : PeerID)
    (hnd : st.peers.Nodup) :
    ((mget st.myTopics t).getD [] = [] →
      sendsToPeer (handleAddSubscription st t).2.1 q =
        (if q ∈ st.peers then
          [{ target := Target.peerQ q,
             payload := Payload.rpc (rpcWithSubs [{ topicid := t, subscribe := true }]),
             detached := false }]
         else [])) ∧
    ((mget st.myTopics t).getD [] ≠ [] → (handleAddSubscription st t).2.1 = []) ∧
    (∀ subs, mget st.myTopics sub.topic = some subs → sRemove sub.id subs = [] →
      sendsToPeer (handleRemoveSubscription st sub).2 q =
        (if q ∈ st.peers then
          [{ target := Target.peerQ q,
             payload := Payload.rpc (rpcWithSubs [{ topicid := sub.topic, subscribe := false }]),
             detached := false }]
         else [])) ∧
    (∀ subs, mget st.myTopics sub.topic = some subs → sRemove sub.id subs ≠ [] →
      (handleRemoveSubscription st sub).2 = []) := by
  refine ⟨?_, ?_, ?_, ?_⟩
  · intro h
    have hlen : ((mget st.myTopics t).getD []).length = 0 := by
      rw [h]
      rfl
    rw [handleAddSubscription]
    simp only [hlen, if_pos rfl]
    exact sendsToPeer_announce st t true q hnd
  · intro h
    have hlen : ¬(((mget st.myTopics t).getD []).length = 0) := by
      simpa [List.length_eq_zero] using h
    rw [handleAddSubscription]
    simp only [hlen, if_neg hlen, if_false]
  · intro subs hsubs hrem
    rw [handleRemoveSubscription, hsubs]
    simp only [hrem, List.length_nil, if_pos rfl]
    exact sendsToPeer_announce _ sub.topic false q hnd
  · intro subs hsubs hrem
    have hlen : ¬((sRemove sub.id subs).length = 0) := by
      simpa [List.length_eq_zero] using hrem
    rw [handleRemoveSubscription, hsubs]
    simp only [if_neg hlen]

def c5State : PState :=
  runEvents (initState "H") [Event.peerUp "P", Event.addSub "t"]

theorem claim_C5_witness :
    c5State.peers.Nodup ∧
    (mget c5State.myTopics "u").getD [] = [] ∧
    sendsToPeer (handleAddSubscription c5State "u").2.1 "P" =
      (if "P" ∈ c5State.peers then
        [{ target := Target.peerQ "P",
           payload := Payload.rpc (rpcWithSubs [{ topicid := "u", subscribe := true }]),
           detached := false }]
       else []) :=
  ⟨by decide, by decide,
   (claim_C5 c5State "u" { id := 0, topic := "t" } "P" (by decide)).1 (by decide)⟩

def c1State : PState := initState "H"

def c1Msg : Message :=
  { fromP := "A", seqno := "1", data := "x", topicIDs := ["u"] }

theorem claim_C1_witness :
    msgID c1Msg ∉ c1State.seen ∧
    ((maybePublishMessage c1State "P" c1Msg).1.seen.count (msgID c1Msg) = 1 ∧
     (maybePublishMessage c1State "P" c1Msg).2 =
       notifySubs (markSeen c1State (msgID c1Msg)) c1Msg ++
         publishMessage (markSeen c1State (msgID c1Msg)) "P" c1Msg ∧
     maybePublishMessage (maybePublishMessage c1State "P" c1Msg).1 "R" c1Msg =
       ((maybePublishMessage c1State "P" c1Msg).1, [])) :=
  ⟨by decide, (claim_C1 c1State "P" "R" c1Msg).2 (by decide)⟩

/-- C8: listPeers with the empty topic returns exactly the keys of the peers
map; with a non-empty topic it returns the empty list when remote_topics has no
entry for it, and otherwise exactly the connected peers that are in the topic's
remote set. -/
theorem claim_C8 (st : PState) (t : Topic) (q : PeerID) :
    listPeers st "" = st.peers ∧
    (t ≠ "" → mget st.topics t = none → listPeers st t = []) ∧
    (t ≠ "" → (q ∈ listPeers st t ↔ q ∈ st.peers ∧ q ∈ mgetD st.topics t [])) := by
  refine ⟨?_, ?_, ?_⟩
  · rw [listPeers]
    cases mget st.topics "" <;> simp
  · intro ht hn
    rw [listPeers, hn, if_neg ht]
  · intro ht
    rw [listPeers]
    cases hm : mget st.topics t with
    | none =>
      simp [if_neg ht, mgetD, hm]
    | some tmap =>
      simp [if_neg ht, mgetD, hm, List.mem_filter]

def c8State : PState :=
  runEvents (initState "H")
    [Event.peerUp "P", Event.peerUp "Q",
     Event.incoming { subscriptions := [{ topicid := "z", subscribe := true }],
                      publish := [], fromPeer := "Q" }]

theorem claim_C8_witness :
    ("z" : Topic) ≠ "" ∧
    ("Q" ∈ listPeers c8State "z" ↔ "Q" ∈ c8State.peers ∧ "Q" ∈ mgetD c8State.topics "z" []) :=
  ⟨by decide, (claim_C8 c8State "z" "Q").2.2 (by decide)⟩

theorem handleAdd_sub (st : PState) (t : Topic) :
    (handleAddSubscription st t).2.2 = { id := st.nextSub, topic := t } := by
  cases hm : mget st.myTopics t <;> simp [handleAddSubscription, hm]

theorem handleAdd_fresh_mem (st : PState) (t : Topic) :
    st.nextSub ∈ mgetD (handleAddSubscription st t).1.myTopics t [] := by
  cases hm : mget st.myTopics t with
  | none =>
    simp only [handleAddSubscription, hm]
    rw [mgetD, mget_mset_self]
    simp [mem_sInsert]
  | some subs =>
    simp only [handleAddSubscription, hm]
    rw [mgetD, mget_mset_self]
    simp [mem_sInsert]

/-- C9: subscribing through a topic descriptor whose auth or enc mode is not
NONE returns an error synchronously with the router state unchanged and nothing
sent; with both modes NONE it runs the add-subscription command and returns the
freshly allocated handle, which is then registered under the topic. -/
theorem claim_C9 (st : PState) (td : TopicDescriptor) :
    ((td.auth ≠ AuthMode.NONE ∨ td.enc ≠ EncMode.NONE) →
      ∃ e, subscribeTD st td = (Except.error e, st, [])) ∧
    (td.auth = AuthMode.NONE → td.enc = EncMode.NONE →
      ((subscribeTD st td).1 = Except.ok { id := st.nextSub, topic := td.name } ∧
       (subscribeTD st td).2.1 = (handleAddSubscription st td.name).1 ∧
       (subscribeTD st td).2.2 = (handleAddSubscription st td.name).2.1 ∧
       st.nextSub ∈ mgetD (subscribeTD st td).2.1.myTopics td.name [])) := by
  constructor
  · intro h
    by_cases ha : td.auth ≠ AuthMode.NONE
    · exact ⟨"Auth method not yet supported", by rw [subscribeTD, if_pos ha]⟩
    · have he : td.enc ≠ EncMode.NONE := by
        rcases h with h | h
        · exact absurd h ha
        · exact h
      exact ⟨"Encryption method not yet supported", by rw [subscribeTD, if_neg ha, if_pos he]⟩
  · intro ha he
    have ha2 : ¬(td.auth ≠ AuthMode.NONE) := by simp [ha]
    have he2 : ¬(td.enc ≠ EncMode.NONE) := by simp [he]
    have hst : subscribeTD st td =
        (Except.ok (handleAddSubscription st td.name).2.2,
         (handleAddSubscription st td.name).1, (handleAddSubscription st td.name).2.1) := by
      simp only [subscribeTD, if_neg ha2, if_neg he2]
    rw [hst]
    exact ⟨by rw [handleAdd_sub], rfl, rfl, handleAdd_fresh_mem st td.name⟩

theorem claim_C9_witness :
    ((TopicDescriptor.mk "t" AuthMode.KEY EncMode.NONE).auth ≠ AuthMode.NONE ∨
     (TopicDescriptor.mk "t" AuthMode.KEY EncMode.NONE).enc ≠ EncMode.NONE) ∧
    ∃ e, subscribeTD (initState "W9") (TopicDescriptor.mk "t" AuthMode.KEY EncMode.NONE) =
      (Except.error e, initState "W9", []) :=
  ⟨Or.inl (by decide),
   (claim_C9 (initState "W9") (TopicDescriptor.mk "t" AuthMode.KEY EncMode.NONE)).1
     (Or.inl (by decide))⟩

def c4State : PState :=
  runEvents (initState "H")
    [Event.peerUp "P", Event.peerUp "Q",
     Event.incoming { subscriptions := [{ topicid := "t", subscribe := true }],
                      publish := [], fromPeer := "Q" },
     Event.addSub "t", Event.cancel { id := 0, topic := "t" }]

def c4Msg : Message :=
  { fromP := "X", seqno := "1", data := "d", topicIDs := ["t"] }

/-- C4 counterexample: after the last handle for topic t has been cancelled,
myTopics still holds the key t with an empty subscriber set, so an incoming
message on t is NOT dropped: subscribedToMsg is still true, the seen-set is
updated and the message is forwarded to the remote subscriber Q. -/
theorem claim_C4_counterexample :
    mgetD c4State.myTopics "t" [] = [] ∧
    subscribedToMsg c4State c4Msg = true ∧
    (handleIncomingRPC c4State { subscriptions := [], publish := [c4Msg], fromPeer := "P" }).1.seen =
      [msgID c4Msg] ∧
    (handleIncomingRPC c4State { subscriptions := [], publish := [c4Msg], fromPeer := "P" }).2 =
      [{ target := Target.peerQ "Q", payload := Payload.rpc (rpcWithMessages [c4Msg]),
         detached := true }] := by
  decide

/-- C4 amended: an incoming single-message RPC is dropped, with no state change
(seen-set untouched) and no sends, exactly when no topic of the message is a KEY
of myTopics; otherwise it is handed to maybePublishMessage. The check is key
presence, not live-subscriber presence: cancelling a subscription never removes
the topic key, so after the last cancel messages on the topic are still
processed. -/
theorem claim_C4 (st : PState) (frm : PeerID) (m : Message) (sub : Subscription) :
    (subscribedToMsg st m = false →
      handleIncomingRPC st { subscriptions := [], publish := [m], fromPeer := frm } = (st, [])) ∧
    (subscribedToMsg st m = true →
      handleIncomingRPC st { subscriptions := [], publish := [m], fromPeer := frm } =
        maybePublishMessage st frm m) ∧
    (subscribedToMsg st m = true ↔ ∃ t ∈ m.topicIDs, (mget st.myTopics t).isSome) ∧
    keys (handleRemoveSubscription st sub).1.myTopics = keys st.myTopics := by
  refine ⟨?_, ?_, ?_, ?_⟩
  · intro h
    simp [handleIncomingRPC, handleSubOpts, handleMsgs, h]
  · intro h
    simp [handleIncomingRPC, handleSubOpts, handleMsgs, h]
  · simp [subscribedToMsg, List.any_eq_true]
  · cases hm : mget st.myTopics sub.topic with
    | none => simp [handleRemoveSubscription, hm]
    | some subs =>
      have hk := keys_mset_of_mem st.myTopics sub.topic (sRemove sub.id subs) subs hm
      by_cases hr : (sRemove sub.id subs).length = 0
      · simp [handleRemoveSubscription, hm, hr, hk]
      · simp [handleRemoveSubscription, hm, hr, hk]

theorem claim_C4_witness :
    subscribedToMsg (initState "H") c4Msg = false ∧
    handleIncomingRPC (initState "H") { subscriptions := [], publish := [c4Msg], fromPeer := "P" } =
      (initState "H", []) :=
  ⟨by decide, (claim_C4 (initState "H") "P" c4Msg { id := 0, topic := "t" }).1 (by decide)⟩

def c6State : PState :=
  runEvents (initState "H")
    [Event.peerUp "P", Event.addSub "t", Event.cancel { id := 0, topic := "t" }]

/-- C6: cancellation is NOT idempotent in the code. After subscribing once to
topic t (handle 0) and cancelling that handle, processing the same cancel again
finds the still-present (empty) entry of myTopics, closes the handle's inbox a
second time (close of a closed channel: a runtime fault, recorded as closeFault)
and broadcasts a duplicate subscribe=false announcement. -/
theorem claim_C6 :
    c6State.closeFault = false ∧
    (0 : Nat) ∈ c6State.closed ∧
    mget c6State.myTopics "t" = some [] ∧
    (handleRemoveSubscription c6State { id := 0, topic := "t" }).1.closeFault = true ∧
    (handleRemoveSubscription c6State { id := 0, topic := "t" }).2 =
      [{ target := Target.peerQ "P",
         payload := Payload.rpc (rpcWithSubs [{ topicid := "t", subscribe := false }]),
         detached := false }] := by
  decide

def c7State : PState :=
  runEvents (initState "H") [Event.peerUp "P", Event.addSub "t"]

def c7Msg : Message :=
  { fromP := "X", seqno := "1", data := "", topicIDs := ["t"] }

/-- C7 counterexample: with one connected peer and one local subscription, the
subscription-announcement broadcast and the local inbox delivery performed by
the router loop are plain inline channel sends (not detached, not non-blocking),
so the loop suspends on them whenever the capacity-32 buffer is full. -/
theorem claim_C7_counterexample :
    ((announce c7State "t" true).all (fun s => s.detached)) = false ∧
    ((notifySubs c7State c7Msg).all (fun s => s.detached)) = false := by
  decide

/-- C7 amended: the per-peer message forwards of publishMessage are all deferred
to detached goroutines, so they never suspend the loop; but every send of the
announcement broadcast and every local inbox delivery is performed inline by the
loop, and such a send suspends the loop when the target buffer is full. -/
theorem claim_C7 (st : PState) (frm : PeerID) (m : Message) (t : Topic) (b : Bool) :
    ((publishMessage st frm m).all (fun s => s.detached)) = true ∧
    ((announce st t b).all (fun s => !s.detached)) = true ∧
    ((notifySubs st m).all (fun s => !s.detached)) = true := by
  refine ⟨?_, ?_, ?_⟩
  · rw [List.all_eq_true]
    intro s hs
    rw [publishMessage] at hs
    rcases List.mem_map.mp hs with ⟨pid, _, rfl⟩
    rfl
  · rw [List.all_eq_true]
    intro s hs
    rw [announce] at hs
    rcases List.mem_map.mp hs with ⟨pid, _, rfl⟩
    rfl
  · rw [notifySubs]
    induction m.topicIDs with
    | nil => rfl
    | cons u ts ih =>
      rw [List.foldr_cons, List.all_append, ih, Bool.and_true, List.all_eq_true]
      intro s hs
      rcases List.mem_map.mp hs with ⟨sid, _, rfl⟩
      rfl

/-- The invariant of the claim: every peer recorded in some remote topic set is
a currently connected peer. -/
def topicsPeersInv (st : PState) : Prop :=
  ∀ t p, p ∈ mgetD st.topics t [] → p ∈ st.peers

theorem inv_of_fields {s s2 : PState} (ht : s2.topics = s.topics) (hp : s2.peers = s.peers)
    (hinv : topicsPeersInv s) : topicsPeersInv s2 := by
  intro t p hm
  rw [hp]
  apply hinv t p
  rw [mgetD, ht] at hm
  exact hm

theorem maybePublish_fields (s : PState) (f : PeerID) (m : Message) :
    (maybePublishMessage s f m).1.topics = s.topics ∧
      (maybePublishMessage s f m).1.peers = s.peers := by
  rw [maybePublishMessage]
  by_cases hs : seenMessage s (msgID m) = true
  · simp [hs]
  · rw [Bool.not_eq_true] at hs
    simp [hs, markSeen]

theorem handleMsgs_fields (f : PeerID) (ms : List Message) :
    ∀ acc : PState × List Send,
      (handleMsgs f acc ms).1.topics = acc.1.topics ∧
        (handleMsgs f acc ms).1.peers = acc.1.peers := by
  induction ms with
  | nil => exact fun acc => ⟨rfl, rfl⟩
  | cons m ms ih =>
    intro acc
    rw [handleMsgs]
    by_cases hs : subscribedToMsg acc.1 m = true
    · rw [if_pos hs]
      rcases ih ((maybePublishMessage acc.1 f m).1, acc.2 ++ (maybePublishMessage acc.1 f m).2)
        with ⟨h1, h2⟩
      rcases maybePublish_fields acc.1 f m with ⟨h3, h4⟩
      exact ⟨by rw [h1]; exact h3, by rw [h2]; exact h4⟩
    · rw [if_neg hs]
      exact ih acc

theorem handleSubOpt_peers (s : PState) (f : PeerID) (o : SubOpts) :
    (handleSubOpt s f o).peers = s.peers := by
  rw [handleSubOpt]
  by_cases ho : o.subscribe = true
  · rw [if_pos ho]
  · rw [if_neg ho]
    cases mget s.topics o.topicid <;> rfl

theorem handleSubOpt_inv (s : PState) (f : PeerID) (o : SubOpts)
    (hinv : topicsPeersInv s) (hf : f ∈ s.peers) : topicsPeersInv (handleSubOpt s f o) := by
  rw [handleSubOpt]
  by_cases ho : o.subscribe = true
  · rw [if_pos ho]
    intro t p hm
    by_cases ht : t = o.topicid
    · subst ht
      rw [mgetD, mget_mset_self, Option.getD_some] at hm
      rcases (mem_sInsert f p _).mp hm with rfl | hm
      · exact hf
      · exact hinv _ p hm
    · rw [mgetD, mget_mset_ne _ _ _ _ ht] at hm
      exact hinv _ p hm
  · rw [if_neg ho]
    cases hg : mget s.topics o.topicid with
    | none => exact hinv
    | some tmap =>
      intro t p hm
      by_cases ht : t = o.topicid
      · subst ht
        rw [mgetD, mget_mset_self, Option.getD_some] at hm
        rcases (mem_sRemove f p tmap).mp hm with ⟨hm, _⟩
        apply hinv o.topicid p
        rw [mgetD, hg, Option.getD_some]
        exact hm
      · rw [mgetD, mget_mset_ne _ _ _ _ ht] at hm
        exact hinv _ p hm

theorem handleSubOpts_peers (f : PeerID) (os : List SubOpts) :
    ∀ s : PState, (handleSubOpts f s os).peers = s.peers := by
  induction os with
  | nil => exact fun s => rfl
  | cons o os ih =>
    intro s
    rw [handleSubOpts, ih (handleSubOpt s f o), handleSubOpt_peers]

theorem handleSubOpts_inv (f : PeerID) (os : List SubOpts) :
    ∀ s : PState, topicsPeersInv s → f ∈ s.peers →
      topicsPeersInv (handleSubOpts f s os) := by
  induction os with
  | nil => exact fun s hinv _ => hinv
  | cons o os ih =>
    intro s hinv hf
    rw [handleSubOpts]
    apply ih (handleSubOpt s f o) (handleSubOpt_inv s f o hinv hf)
    rw [handleSubOpt_peers]
    exact hf

theorem handleAdd_fields (st : PState) (t : Topic) :
    (handleAddSubscription st t).1.topics = st.topics ∧
      (handleAddSubscription st t).1.peers = st.peers := by
  cases hm : mget st.myTopics t <;> simp [handleAddSubscription, hm]

theorem handleRemove_fields (st : PState) (sub : Subscription) :
    (handleRemoveSubscription st sub).1.topics = st.topics ∧
      (handleRemoveSubscription st sub).1.peers = st.peers := by
  cases hm : mget st.myTopics sub.topic with
  | none => simp [handleRemoveSubscription, hm]
  | some subs =>
    by_cases hr : (sRemove sub.id subs).length = 0
    · simp [handleRemoveSubscription, hm, hr]
    · simp [handleRemoveSubscription, hm, hr]

/-- C3 counterexample: process peer-up for A, then peer-down for A, then an
incoming RPC (still queued from A) carrying subscribe=true for topic t. The
final state lists A in remote_topics[t] while A is absent from peers, violating
the claimed invariant. -/
theorem claim_C3_counterexample :
    ("A" : PeerID) ∈
      mgetD (runEvents (initState "H")
        [Event.peerUp "A", Event.peerDown "A",
         Event.incoming { subscriptions := [{ topicid := "t", subscribe := true }],
                          publish := [], fromPeer := "A" }]).topics "t" [] ∧
    ("A" : PeerID) ∉
      (runEvents (initState "H")
        [Event.peerUp "A", Event.peerDown "A",
         Event.incoming { subscriptions := [{ topicid := "t", subscribe := true }],
                          publish := [], fromPeer := "A" }]).peers := by
  decide

/-- C3 amended: the invariant (every peer in a remote topic set is in peers)
holds in the initial state and is preserved by every router event EXCEPT an
incoming RPC whose sender is no longer (or not yet) in peers; under the added
assumption that every incoming RPC processed comes from a currently connected
peer, it holds in every reachable state. Without that assumption it fails: an
RPC still queued after its sender's peer-down inserts the departed peer into
remote_topics. -/
theorem claim_C3 (h : PeerID) (st : PState) (e : Event)
    (hinv : topicsPeersInv st)
    (hfrom : ∀ r, e = Event.incoming r → r.fromPeer ∈ st.peers) :
    topicsPeersInv (initState h) ∧ topicsPeersInv (step st e).1 := by
  constructor
  · intro t p hp
    exact absurd hp (List.not_mem_nil p)
  · cases e with
    | peerUp pid =>
      intro t p hp
      exact (mem_sInsert pid p st.peers).mpr (Or.inr (hinv t p hp))
    | peerDown pid =>
      intro t p hp
      simp only [step, handlePeerDown] at hp ⊢
      rw [mgetD, mget_map_fun] at hp
      cases hm : mget st.topics t with
      | none =>
        rw [hm] at hp
        exact absurd hp (List.not_mem_nil p)
      | some tmap =>
        rw [hm, Option.map_some', Option.getD_some] at hp
        rcases (mem_sRemove pid p tmap).mp hp with ⟨hpt, hne⟩
        have hmem : p ∈ st.peers := by
          apply hinv t p
          rw [mgetD, hm, Option.getD_some]
          exact hpt
        exact (mem_sRemove pid p st.peers).mpr ⟨hmem, hne⟩
    | incoming r =>
      have hf : r.fromPeer ∈ st.peers := hfrom r rfl
      have h1 : topicsPeersInv (handleSubOpts r.fromPeer st r.subscriptions) :=
        handleSubOpts_inv r.fromPeer r.subscriptions st hinv hf
      have h2 := handleMsgs_fields r.fromPeer r.publish
        (handleSubOpts r.fromPeer st r.subscriptions, [])
      exact inv_of_fields h2.1 h2.2 h1
    | addSub t =>
      have h2 := handleAdd_fields st t
      exact inv_of_fields h2.1 h2.2 hinv
    | cancel sub =>
      have h2 := handleRemove_fields st sub
      exact inv_of_fields h2.1 h2.2 hinv
    | publish m =>
      have h2 := maybePublish_fields st st.hostID m
      exact inv_of_fields h2.1 h2.2 hinv

theorem claim_C3_witness :
    topicsPeersInv (initState "W3") ∧
    (∀ r, Event.addSub "t" = Event.incoming r → r.fromPeer ∈ (initState "W3").peers) ∧
    (topicsPeersInv (initState "W3h") ∧
      topicsPeersInv (step (initState "W3") (Event.addSub "t")).1) :=
  ⟨fun _ p hp => absurd hp (List.not_mem_nil p),
   fun _ hr => Event.noConfusion hr,
   claim_C3 "W3h" (initState "W3") (Event.addSub "t")
     (fun _ p hp => absurd hp (List.not_mem_nil p))
     (fun _ hr => Event.noConfusion hr)⟩

end Floodsub
